import Mathlib

/-!
Verification of the porttime Linux backend (ptlinux.c) against its design
specification.  The C module is embedded shallowly: the static module data
becomes a state record, the pure arithmetic (timediff_ms, the delay
computation of the callback loop) becomes Lean functions on Int with C
truncation-toward-zero division (Int.tdiv), the fallible start path becomes a
function taking the environment outcomes (clock sample, malloc success,
thread-creation success) as parameters, and the interleaving of the callback
thread with Pt_Stop becomes a labelled small-step relation.
-/

namespace PtLinux

/-- Clock sample, struct timespec under OP_HAVE_CLOCK_GETTIME: seconds and
nanoseconds, both C long, modelled as Int. -/
structure OpTime where
  tv_sec : Int
  tv_nsec : Int
  deriving DecidableEq, Repr

/-- Error codes of porttime returned by this module: ptNoError, ptHostError
and ptInsufficientMemory are the only ones ptlinux.c produces. -/
inductive PtError where
  | ptNoError
  | ptHostError
  | ptInsufficientMemory
  deriving DecidableEq, Repr

/-- The callback registration malloc-ed by Pt_Start (pt_callback_parameters):
captured generation id, resolution, and the callback and userData pointers,
the latter two modelled as opaque numeric tags. -/
structure pt_callback_parameters where
  id : Int
  resolution : Int
  callback : Nat
  userData : Nat
  deriving DecidableEq, Repr

/-- The static module data of ptlinux.c: time_started_flag, time_offset and
pt_callback_proc_id. -/
structure PtState where
  time_started_flag : Bool
  time_offset : OpTime
  pt_callback_proc_id : Int
  deriving DecidableEq, Repr

/-- Zero-initialized static data, the state before any call: flag FALSE,
time_offset the all-zero struct, pt_callback_proc_id 0. -/
def initState : PtState := ⟨false, ⟨0, 0⟩, 0⟩

/-- The function timediff_ms of ptlinux.c (OP_HAVE_CLOCK_GETTIME branch):
seconds difference times 1000 plus nanoseconds difference divided by 1000000.
C division of long operands truncates toward zero, which is Int.tdiv. -/
def timediff_ms (time_offset now : OpTime) : Int :=
  let seconds := now.tv_sec - time_offset.tv_sec
  let nanoseconds := now.tv_nsec - time_offset.tv_nsec
  seconds * 1000 + Int.tdiv nanoseconds 1000000

/-- Pt_Time of ptlinux.c: sample the clock and return the millisecond
difference from the stored origin.  The clock sample produced by get_time is
passed as a parameter. -/
def Pt_Time (s : PtState) (now : OpTime) : Int :=
  timediff_ms s.time_offset now

/-- Pt_Started of ptlinux.c: return time_started_flag. -/
def Pt_Started (s : PtState) : Bool :=
  s.time_started_flag

/-- Delay computation of one iteration of the Pt_CallbackProc loop:
delay = mytime * resolution - Pt_Time(), clamped below by 0. -/
def pt_delay (resolution mytime t : Int) : Int :=
  let delay := mytime * resolution - t
  if delay < 0 then 0 else delay

/-- Invocation times of the callback along a run of the Pt_CallbackProc loop
under ideal sleeps: the iteration with counter mytime beginning at clock value
t sleeps pt_delay resolution mytime t, so the callback fires at t plus that
delay; each list entry of costs is the time the callback body and the loop
overhead consume before the next iteration reads the clock, and mytime is
incremented once per iteration. -/
def callbackTimes (resolution : Int) : Int → Int → List Int → List Int
  | _, _, [] => []
  | mytime, t, cost :: costs =>
      let wake := t + pt_delay resolution mytime t
      wake :: callbackTimes resolution (mytime + 1) (wake + cost) costs

/-- Environment outcomes consumed by one Pt_Start call: the sample written by
get_time into time_offset, whether malloc succeeds, and whether
pthread_create succeeds. -/
structure StartEnv where
  now : OpTime
  malloc_ok : Bool
  create_ok : Bool
  deriving DecidableEq, Repr

/-- Result of Pt_Start: the returned error code, the module state after the
call, and the registration handed to a spawned thread, if any. -/
structure StartResult where
  err : PtError
  state : PtState
  spawned : Option pt_callback_parameters
  deriving DecidableEq, Repr

/-- Pt_Start of ptlinux.c.  If time_started_flag is set it returns ptNoError
at once, touching nothing.  Otherwise it first overwrites time_offset with a
fresh sample; then, when a callback is supplied, it allocates the
registration (ptInsufficientMemory on malloc failure), fills it with the
current pt_callback_proc_id, the resolution, the callback and userData, and
spawns the thread (ptHostError on failure); only on full success, or when no
callback is supplied, does it set time_started_flag. -/
def Pt_Start (resolution : Int) (callback : Option Nat) (userData : Nat)
    (env : StartEnv) (s : PtState) : StartResult :=
  if s.time_started_flag then ⟨PtError.ptNoError, s, none⟩
  else
    let s1 : PtState := { s with time_offset := env.now }
    match callback with
    | some cb =>
        if env.malloc_ok = false then ⟨PtError.ptInsufficientMemory, s1, none⟩
        else
          let parms : pt_callback_parameters :=
            ⟨s1.pt_callback_proc_id, resolution, cb, userData⟩
          if env.create_ok = false then ⟨PtError.ptHostError, s1, none⟩
          else ⟨PtError.ptNoError, { s1 with time_started_flag := true }, some parms⟩
    | none => ⟨PtError.ptNoError, { s1 with time_started_flag := true }, none⟩

/-- Result of Pt_Stop: the returned error code and the state after the call. -/
structure StopResult where
  err : PtError
  state : PtState
  deriving DecidableEq, Repr

/-- Pt_Stop of ptlinux.c: increment pt_callback_proc_id, join the thread,
clear time_started_flag, return ptNoError.  The join itself is part of the
step relation below; its state effect is nil. -/
def Pt_Stop (s : PtState) : StopResult :=
  ⟨PtError.ptNoError,
   { s with pt_callback_proc_id := s.pt_callback_proc_id + 1,
            time_started_flag := false }⟩

/-- Exit path of Pt_CallbackProc acting on the list of live heap
allocations: the free call at the end of the procedure is commented out in
the source, so the exit path deallocates nothing and returns the live list
unchanged. -/
def Pt_CallbackProc_exit (live : List pt_callback_parameters)
    (_parameters : pt_callback_parameters) : List pt_callback_parameters :=
  live

/-- Control point of the callback thread between its atomic actions:
checking is the loop guard reading pt_callback_proc_id, sleeping is the
select call, calling is the callback invocation, exited is after the loop. -/
inductive Phase where
  | checking
  | sleeping
  | calling
  | exited
  deriving DecidableEq, Repr

/-- Joint configuration of the callback thread and one Pt_Stop caller:
the live counter pt_callback_proc_id, the id captured in the registration,
the control point of the thread, whether Pt_Stop has performed its
increment, and whether Pt_Stop has returned from the join. -/
structure Conf where
  pt_callback_proc_id : Int
  id : Int
  phase : Phase
  stop_signalled : Bool
  stop_returned : Bool
  deriving DecidableEq, Repr

/-- Observable labels of atomic steps: a callback invocation, the return of
Pt_Stop, or an internal action. -/
inductive Label where
  | callback
  | stopReturn
  | internal
  deriving DecidableEq, Repr

/-- Atomic interleaved steps of the callback thread and Pt_Stop.  Thread
side, from the Pt_CallbackProc loop: the guard compares the live counter to
the captured id once per iteration, continuing into the sleep on equality
and exiting on mismatch without invoking the callback again; after the sleep
the callback is invoked and control returns to the guard.  Stop side, from
Pt_Stop: the increment of the counter, then the join, which can fire only
once the thread has exited, and whose completion is the return of Pt_Stop. -/
inductive Step : Conf → Label → Conf → Prop where
  | check_continue (c : Conf) :
      c.phase = Phase.checking → c.pt_callback_proc_id = c.id →
      Step c Label.internal { c with phase := Phase.sleeping }
  | check_exit (c : Conf) :
      c.phase = Phase.checking → c.pt_callback_proc_id ≠ c.id →
      Step c Label.internal { c with phase := Phase.exited }
  | sleep_done (c : Conf) :
      c.phase = Phase.sleeping →
      Step c Label.internal { c with phase := Phase.calling }
  | invoke (c : Conf) :
      c.phase = Phase.calling →
      Step c Label.callback { c with phase := Phase.checking }
  | stop_increment (c : Conf) :
      c.stop_signalled = false →
      Step c Label.internal
        { c with pt_callback_proc_id := c.pt_callback_proc_id + 1,
                 stop_signalled := true }
  | stop_join (c : Conf) :
      c.stop_signalled = true → c.phase = Phase.exited →
      c.stop_returned = false →
      Step c Label.stopReturn { c with stop_returned := true }

/-- Finite executions of the step relation, recording the labels. -/
inductive Exec : Conf → List Label → Conf → Prop where
  | nil (c : Conf) : Exec c [] c
  | cons {c c' c'' : Conf} {l : Label} {ls : List Label} :
      Step c l c' → Exec c' ls c'' → Exec c (l :: ls) c''

/-- Lexicographic order on clock samples: the order in which a non-regressing
clock produces them. -/
def op_time_le (t1 t2 : OpTime) : Prop :=
  t1.tv_sec < t2.tv_sec ∨ (t1.tv_sec = t2.tv_sec ∧ t1.tv_nsec ≤ t2.tv_nsec)

instance (t1 t2 : OpTime) : Decidable (op_time_le t1 t2) :=
  inferInstanceAs (Decidable (t1.tv_sec < t2.tv_sec ∨
    (t1.tv_sec = t2.tv_sec ∧ t1.tv_nsec ≤ t2.tv_nsec)))

/-- Truncating integer division as the specification words it: magnitude
quotient with the fractional part discarded, carrying the sign of the
dividend, no rounding.  Stated for comparison with the C division the code
performs. -/
def truncDiv (a b : Int) : Int :=
  a.sign * ((a.natAbs / b.natAbs : Nat) : Int)

theorem tmod_neg_dividend (a d : Int) : (-a).tmod d = -(a.tmod d) := by
  rw [Int.tmod_def, Int.tmod_def, Int.neg_tdiv]
  ring

theorem tmod_nonpos_of_nonpos {a : Int} (d : Int) (h : a ≤ 0) :
    a.tmod d ≤ 0 := by
  have h1 : 0 ≤ (-a).tmod d := Int.tmod_nonneg d (by omega)
  rw [tmod_neg_dividend] at h1
  omega

theorem neg_lt_tmod (a : Int) {d : Int} (hd : 0 < d) : -d < a.tmod d := by
  rcases le_or_lt 0 a with h | h
  · have := Int.tmod_nonneg d h
    omega
  · have h2 : (-a).tmod d < d := Int.tmod_lt_of_pos (-a) hd
    rw [tmod_neg_dividend] at h2
    omega

/-- Shifting the dividend up by k times the divisor raises the truncating
quotient by at most k (divisor 1000000, the one the code uses). -/
theorem tdiv_shift_le (k a b : Int) (hk : 0 ≤ k)
    (h : a ≤ b + k * 1000000) :
    a.tdiv 1000000 ≤ b.tdiv 1000000 + k := by
  have ha := Int.tdiv_add_tmod a 1000000
  have hb := Int.tdiv_add_tmod b 1000000
  have ha1 : a.tmod 1000000 < 1000000 := Int.tmod_lt_of_pos a (by norm_num)
  have ha2 : -1000000 < a.tmod 1000000 := neg_lt_tmod a (by norm_num)
  have hb1 : b.tmod 1000000 < 1000000 := Int.tmod_lt_of_pos b (by norm_num)
  have hb2 : -1000000 < b.tmod 1000000 := neg_lt_tmod b (by norm_num)
  have sa1 : 0 ≤ a → 0 ≤ a.tmod 1000000 := fun h0 => Int.tmod_nonneg _ h0
  have sa2 : a ≤ 0 → a.tmod 1000000 ≤ 0 := fun h0 => tmod_nonpos_of_nonpos _ h0
  have sb1 : 0 ≤ b → 0 ≤ b.tmod 1000000 := fun h0 => Int.tmod_nonneg _ h0
  have sb2 : b ≤ 0 → b.tmod 1000000 ≤ 0 := fun h0 => tmod_nonpos_of_nonpos _ h0
  omega

/-- The C division in timediff_ms is monotone along a non-regressing clock:
a lexicographically later valid sample gives a difference at least as large. -/
theorem timediff_ms_mono {off t1 t2 : OpTime}
    (h1b : t1.tv_nsec < 1000000000) (h2a : 0 ≤ t2.tv_nsec)
    (hle : op_time_le t1 t2) :
    timediff_ms off t1 ≤ timediff_ms off t2 := by
  simp only [timediff_ms]
  rcases hle with hlt | ⟨heq, hn⟩
  · have hsub : t1.tv_nsec - off.tv_nsec ≤
        (t2.tv_nsec - off.tv_nsec) + 1000 * 1000000 := by omega
    have key := tdiv_shift_le 1000 (t1.tv_nsec - off.tv_nsec)
      (t2.tv_nsec - off.tv_nsec) (by norm_num) hsub
    omega
  · have hsub : t1.tv_nsec - off.tv_nsec ≤
        (t2.tv_nsec - off.tv_nsec) + 0 * 1000000 := by omega
    have key := tdiv_shift_le 0 (t1.tv_nsec - off.tv_nsec)
      (t2.tv_nsec - off.tv_nsec) (by norm_num) hsub
    omega

/-- The C truncating division by 1000000 agrees with the specification-side
truncating division. -/
theorem tdiv_eq_truncDiv (a : Int) :
    a.tdiv 1000000 = truncDiv a 1000000 := by
  unfold truncDiv
  cases a with
  | ofNat m =>
      cases m with
      | zero => rfl
      | succ k =>
          have h1 : (Int.ofNat (k + 1)).tdiv 1000000 =
              Int.ofNat ((k + 1) / 1000000) := rfl
          have h2 : Int.sign (Int.ofNat (k + 1)) = 1 := rfl
          rw [h1, h2, one_mul]
          rfl
  | negSucc m =>
      have h1 : (Int.negSucc m).tdiv 1000000 =
          -Int.ofNat ((m + 1) / 1000000) := rfl
      have h2 : Int.sign (Int.negSucc m) = -1 := rfl
      rw [h1, h2, neg_one_mul]
      rfl

/-- When an iteration begins at or before its target elapsed time, and every
callback cost stays below one resolution, each callback fires exactly at its
absolute target n times resolution. -/
theorem callbackTimes_exact (res : Int) (costs : List Int) :
    ∀ (n t : Int), t ≤ n * res →
      (∀ c ∈ costs, 0 ≤ c ∧ c ≤ res) →
      ∀ i : Nat, i < costs.length →
        (callbackTimes res n t costs)[i]? = some ((n + i) * res) := by
  induction costs with
  | nil =>
      intro n t ht hc i hi
      simp at hi
  | cons c cs ih =>
      intro n t ht hc i hi
      have hwake : t + pt_delay res n t = n * res := by
        simp only [pt_delay]
        split <;> omega
      cases i with
      | zero =>
          simp [callbackTimes, hwake]
      | succ j =>
          have hc0 := hc c (List.mem_cons_self c cs)
          have hring : (n + 1) * res = n * res + res := by ring
          have hnext : n * res + c ≤ (n + 1) * res := by
            rw [hring]
            linarith [hc0.2]
          have hrec := ih (n + 1) (n * res + c) hnext
            (fun x hx => hc x (List.mem_cons_of_mem c hx)) j (by simpa using hi)
          simp only [callbackTimes, hwake, List.getElem?_cons_succ]
          rw [hrec]
          congr 1
          push_cast
          ring

theorem exec_append_split {c0 cf : Conf} {l : Label} (pre post : List Label)
    (h : Exec c0 (pre ++ l :: post) cf) :
    ∃ c1 c2, Exec c0 pre c1 ∧ Step c1 l c2 ∧ Exec c2 post cf := by
  induction pre generalizing c0 with
  | nil =>
      rw [List.nil_append] at h
      cases h with
      | cons hstep hrest => exact ⟨c0, _, Exec.nil c0, hstep, hrest⟩
  | cons p ps ih =>
      rw [List.cons_append] at h
      cases h with
      | cons hstep hrest =>
          obtain ⟨c1, c2, h1, h2, h3⟩ := ih hrest
          exact ⟨c1, c2, Exec.cons hstep h1, h2, h3⟩

/-- A configuration in which Pt_Stop has returned admits no further step at
all: the thread has exited and both stop actions are spent. -/
theorem exec_halted {c cf : Conf} {tr : List Label} (hexec : Exec c tr cf)
    (h1 : c.stop_returned = true) (h2 : c.stop_signalled = true)
    (h3 : c.phase = Phase.exited) :
    tr = [] := by
  cases hexec with
  | nil => rfl
  | cons hstep hrest => cases hstep <;> simp_all

/-- C1: each loop iteration of the callback thread computes the sleep delay
as the tick counter times the resolution minus the current Pt_Time value,
clamped to be non-negative, so its wake instant is the maximum of the
current time and the absolute target n times resolution; consequently, with
the counter starting at 1 and incremented once per iteration, every callback
along a run with bounded per-iteration costs fires exactly at its absolute
target, with no accumulation of per-iteration sleep error. -/
theorem C1_drift_free_loop (res t0 n t : Int) (costs : List Int) (i : Nat)
    (ht0 : t0 ≤ res) (hc : ∀ c ∈ costs, 0 ≤ c ∧ c ≤ res)
    (hi : i < costs.length) :
    t + pt_delay res n t = max t (n * res) ∧
    (callbackTimes res 1 t0 costs)[i]? = some (((i : Int) + 1) * res) := by
  constructor
  · simp only [pt_delay]
    rcases le_total t (n * res) with h | h
    · rw [max_eq_right h]
      split <;> omega
    · rw [max_eq_left h]
      split <;> omega
  · have h1 : t0 ≤ 1 * res := by omega
    have := callbackTimes_exact res costs 1 t0 h1 hc i hi
    rw [this]
    congr 1
    ring

theorem C1_drift_free_loop_witness :
    (7 : Int) + pt_delay 10 2 7 = max 7 (2 * 10) ∧
    (callbackTimes 10 1 0 [3, 10, 0])[1]? = some ((((1 : Nat) : Int) + 1) * 10) :=
  C1_drift_free_loop 10 0 2 7 [3, 10, 0] 1 (by norm_num) (by decide)
    (by norm_num)

/-- C2: Pt_Stop increments the generation counter, clears the started flag
and returns ptNoError on every input state; and the join step of the step
relation can fire only from a configuration whose thread has already exited,
so Pt_Stop returns only after thread termination. -/
theorem C2_stop_semantics (s : PtState) (c c' : Conf)
    (hjoin : Step c Label.stopReturn c') :
    (Pt_Stop s).err = PtError.ptNoError ∧
    (Pt_Stop s).state.pt_callback_proc_id = s.pt_callback_proc_id + 1 ∧
    Pt_Started (Pt_Stop s).state = false ∧
    c.phase = Phase.exited := by
  refine ⟨rfl, rfl, rfl, ?_⟩
  cases hjoin with
  | stop_join _ hp _ => exact hp

theorem C2_stop_semantics_witness :
    (Pt_Stop initState).err = PtError.ptNoError ∧
    (Pt_Stop initState).state.pt_callback_proc_id =
      initState.pt_callback_proc_id + 1 ∧
    Pt_Started (Pt_Stop initState).state = false ∧
    (⟨1, 0, Phase.exited, true, false⟩ : Conf).phase = Phase.exited :=
  C2_stop_semantics initState ⟨1, 0, Phase.exited, true, false⟩
    ⟨1, 0, Phase.exited, true, true⟩ (Step.stop_join _ rfl rfl rfl)

/-- C3: in every execution of the interleaved step relation, once the return
of Pt_Stop has been observed no callback invocation follows: the suffix of
the trace after the stopReturn label contains no callback label. -/
theorem C3_no_callback_after_stop (c0 cf : Conf) (tr pre post : List Label)
    (hexec : Exec c0 tr cf) (hsplit : tr = pre ++ Label.stopReturn :: post) :
    Label.callback ∉ post := by
  subst hsplit
  obtain ⟨c1, c2, _, hstep, hrest⟩ := exec_append_split pre post hexec
  cases hstep with
  | stop_join hs hp _ =>
      have hpost : post = [] := exec_halted hrest rfl hs hp
      simp [hpost]

theorem C3_no_callback_after_stop_witness :
    Label.callback ∉ ([] : List Label) :=
  C3_no_callback_after_stop
    ⟨0, 0, Phase.checking, false, false⟩ ⟨1, 0, Phase.exited, true, true⟩
    [Label.internal, Label.internal, Label.callback, Label.internal,
      Label.internal, Label.stopReturn]
    [Label.internal, Label.internal, Label.callback, Label.internal,
      Label.internal] []
    (Exec.cons (Step.check_continue _ rfl rfl)
      (Exec.cons (Step.sleep_done _ rfl)
        (Exec.cons (Step.invoke _ rfl)
          (Exec.cons (Step.stop_increment _ rfl)
            (Exec.cons (Step.check_exit _ rfl (by decide))
              (Exec.cons (Step.stop_join _ rfl rfl rfl)
                (Exec.nil _)))))))
    rfl

/-- C4: Pt_Start on an already started service is an idempotent no-op that
returns ptNoError for any arguments, leaving the whole state untouched and
spawning nothing. -/
theorem C4_start_idempotent (resolution : Int) (callback : Option Nat)
    (userData : Nat) (env : StartEnv) (s : PtState)
    (h : s.time_started_flag = true) :
    Pt_Start resolution callback userData env s =
      ⟨PtError.ptNoError, s, none⟩ := by
  simp [Pt_Start, h]

theorem C4_start_idempotent_witness :
    (⟨true, ⟨3, 4⟩, 7⟩ : PtState).time_started_flag = true ∧
    Pt_Start 0 (some 9) 5 ⟨⟨8, 8⟩, true, true⟩ ⟨true, ⟨3, 4⟩, 7⟩ =
      ⟨PtError.ptNoError, ⟨true, ⟨3, 4⟩, 7⟩, none⟩ :=
  ⟨rfl, C4_start_idempotent 0 (some 9) 5 ⟨⟨8, 8⟩, true, true⟩
    ⟨true, ⟨3, 4⟩, 7⟩ rfl⟩

/-- C5 as stated is false on the code: a Pt_Start call that fails with
ptInsufficientMemory has already overwritten the time origin, because
get_time runs before the allocation; here the origin moves from the zero
sample to the fresh sample even though the call fails. -/
theorem C5_counterexample :
    (Pt_Start 10 (some 1) 0 ⟨⟨5, 7⟩, false, true⟩ initState).err =
      PtError.ptInsufficientMemory ∧
    ¬ (Pt_Start 10 (some 1) 0 ⟨⟨5, 7⟩, false, true⟩ initState).state.time_offset
        = initState.time_offset := by
  decide

/-- C5 amended: when Pt_Start fails, with ptInsufficientMemory on allocation
failure or ptHostError on thread-creation failure, the service stays stopped,
no thread is spawned and the generation counter is untouched; however the
time origin has already been overwritten with the fresh clock sample. -/
theorem C5_amended (resolution : Int) (cb userData : Nat) (env : StartEnv)
    (s : PtState) (hs : s.time_started_flag = false)
    (hfail : env.malloc_ok = false ∨ env.create_ok = false) :
    (env.malloc_ok = false →
      (Pt_Start resolution (some cb) userData env s).err =
        PtError.ptInsufficientMemory) ∧
    (env.malloc_ok = true → env.create_ok = false →
      (Pt_Start resolution (some cb) userData env s).err =
        PtError.ptHostError) ∧
    Pt_Started (Pt_Start resolution (some cb) userData env s).state = false ∧
    (Pt_Start resolution (some cb) userData env s).spawned = none ∧
    (Pt_Start resolution (some cb) userData env s).state.pt_callback_proc_id =
      s.pt_callback_proc_id ∧
    (Pt_Start resolution (some cb) userData env s).state.time_offset =
      env.now := by
  rcases hfail with hm | hcr
  · simp [Pt_Start, hs, hm, Pt_Started]
  · by_cases hm : env.malloc_ok = true
    · simp [Pt_Start, hs, hm, hcr, Pt_Started]
    · simp only [Bool.not_eq_true] at hm
      simp [Pt_Start, hs, hm, Pt_Started]

theorem C5_amended_witness :
    ((⟨⟨5, 7⟩, true, false⟩ : StartEnv).malloc_ok = false →
      (Pt_Start 10 (some 1) 0 ⟨⟨5, 7⟩, true, false⟩ initState).err =
        PtError.ptInsufficientMemory) ∧
    ((⟨⟨5, 7⟩, true, false⟩ : StartEnv).malloc_ok = true →
      (⟨⟨5, 7⟩, true, false⟩ : StartEnv).create_ok = false →
      (Pt_Start 10 (some 1) 0 ⟨⟨5, 7⟩, true, false⟩ initState).err =
        PtError.ptHostError) ∧
    Pt_Started (Pt_Start 10 (some 1) 0 ⟨⟨5, 7⟩, true, false⟩ initState).state =
      false ∧
    (Pt_Start 10 (some 1) 0 ⟨⟨5, 7⟩, true, false⟩ initState).spawned = none ∧
    (Pt_Start 10 (some 1) 0
        ⟨⟨5, 7⟩, true, false⟩ initState).state.pt_callback_proc_id =
      initState.pt_callback_proc_id ∧
    (Pt_Start 10 (some 1) 0 ⟨⟨5, 7⟩, true, false⟩ initState).state.time_offset =
      (⟨⟨5, 7⟩, true, false⟩ : StartEnv).now :=
  C5_amended 10 1 0 ⟨⟨5, 7⟩, true, false⟩ initState rfl (Or.inr rfl)

/-- C6: along any lexicographically non-decreasing list of valid clock
samples, the corresponding Pt_Time values are non-decreasing, for any stored
origin. -/
theorem C6_time_monotone (s : PtState) (samples : List OpTime)
    (hv : ∀ t ∈ samples, 0 ≤ t.tv_nsec ∧ t.tv_nsec < 1000000000)
    (hchain : List.Chain' op_time_le samples) :
    List.Chain' (fun a b => a ≤ b) (samples.map (fun t => Pt_Time s t)) := by
  induction samples with
  | nil => simp
  | cons t rest ih =>
      cases rest with
      | nil => simp
      | cons u rest2 =>
          rw [List.map_cons, List.map_cons, List.chain'_cons]
          rw [List.chain'_cons] at hchain
          constructor
          · exact timediff_ms_mono (hv t (by simp)).2 (hv u (by simp)).1
              hchain.1
          · have hrec := ih (fun x hx => hv x (List.mem_cons_of_mem t hx))
              hchain.2
            rw [List.map_cons] at hrec
            exact hrec

theorem C6_time_monotone_witness :
    List.Chain' (fun a b => a ≤ b)
      (([⟨0, 5⟩, ⟨1, 2⟩, ⟨1, 999999999⟩] : List OpTime).map
        (fun t => Pt_Time ⟨true, ⟨0, 3⟩, 0⟩ t)) :=
  C6_time_monotone ⟨true, ⟨0, 3⟩, 0⟩ [⟨0, 5⟩, ⟨1, 2⟩, ⟨1, 999999999⟩]
    (by decide) (by norm_num [List.chain'_cons, op_time_le])

/-- C7: the value of timediff_ms is exactly the seconds difference times 1000
plus the nanoseconds difference divided by 1000000 under truncating integer
division with no rounding. -/
theorem C7_timediff_truncating (off now : OpTime) :
    timediff_ms off now =
      (now.tv_sec - off.tv_sec) * 1000 +
        truncDiv (now.tv_nsec - off.tv_nsec) 1000000 := by
  simp only [timediff_ms]
  rw [tdiv_eq_truncDiv]

/-- C8 as stated is false on the code: the free of the registration at the
end of Pt_CallbackProc is commented out, so after the cooperative exit the
registration is still among the live allocations. -/
theorem C8_counterexample :
    (⟨0, 10, 1, 2⟩ : pt_callback_parameters) ∈
      Pt_CallbackProc_exit [⟨0, 10, 1, 2⟩] ⟨0, 10, 1, 2⟩ := by
  decide

/-- C8 amended: the cooperative-cancellation exit path of the thread frees
nothing: the registration stays live and the allocation list is returned
unchanged, a leak by design. -/
theorem C8_amended (live : List pt_callback_parameters)
    (p : pt_callback_parameters) (hp : p ∈ live) :
    p ∈ Pt_CallbackProc_exit live p ∧ Pt_CallbackProc_exit live p = live :=
  ⟨hp, rfl⟩

theorem C8_amended_witness :
    (⟨0, 10, 1, 2⟩ : pt_callback_parameters) ∈
        Pt_CallbackProc_exit [⟨0, 10, 1, 2⟩] ⟨0, 10, 1, 2⟩ ∧
      Pt_CallbackProc_exit [(⟨0, 10, 1, 2⟩ : pt_callback_parameters)]
          ⟨0, 10, 1, 2⟩ =
        [⟨0, 10, 1, 2⟩] :=
  C8_amended [⟨0, 10, 1, 2⟩] ⟨0, 10, 1, 2⟩ (by decide)

/-- C9: Pt_Start never validates the resolution: any value, also zero or a
negative one, yields ptNoError when the service is stopped and the
environment cooperates, with or without a callback; and for a non-positive
resolution the computed delay of the thread loop is clamped to 0 at every
iteration. -/
theorem C9_no_resolution_validation (res res2 n t : Int) (cb userData : Nat)
    (env : StartEnv) (s : PtState)
    (hs : s.time_started_flag = false) (hm : env.malloc_ok = true)
    (hcr : env.create_ok = true) (hres2 : res2 ≤ 0) (hn : 1 ≤ n)
    (ht : 0 ≤ t) :
    (Pt_Start res (some cb) userData env s).err = PtError.ptNoError ∧
    (Pt_Start res none userData env s).err = PtError.ptNoError ∧
    pt_delay res2 n t = 0 := by
  refine ⟨?_, ?_, ?_⟩
  · simp [Pt_Start, hs, hm, hcr]
  · simp [Pt_Start, hs]
  · have hmul : n * res2 ≤ 0 :=
      mul_nonpos_iff.mpr (Or.inl ⟨by omega, hres2⟩)
    simp only [pt_delay]
    have hle : n * res2 - t ≤ 0 := by linarith
    rcases lt_or_eq_of_le hle with hlt | heq
    · rw [if_pos hlt]
    · rw [heq]
      norm_num

theorem C9_no_resolution_validation_witness :
    (Pt_Start (-3) (some 1) 0 ⟨⟨0, 0⟩, true, true⟩ initState).err =
      PtError.ptNoError ∧
    (Pt_Start (-3) none 0 ⟨⟨0, 0⟩, true, true⟩ initState).err =
      PtError.ptNoError ∧
    pt_delay (-3) 2 4 = 0 :=
  C9_no_resolution_validation (-3) (-3) 2 4 1 0 ⟨⟨0, 0⟩, true, true⟩
    initState rfl rfl rfl (by norm_num) (by norm_num) (by norm_num)

/-- C10: Pt_Time called before any Pt_Start returns, without failing, the
millisecond value of the raw clock sample measured against the
zero-initialized static origin. -/
theorem C10_time_before_start (now : OpTime) :
    Pt_Time initState now =
      now.tv_sec * 1000 + Int.tdiv now.tv_nsec 1000000 := by
  simp [Pt_Time, timediff_ms, initState]

end PtLinux
